import Mathlib

/-!
Shallow embedding of `src/scripts/localization_drop.py`, a small utility
that copies localized resource files from a build-artifact drop location
into the project source tree.

The script, line by line:
* checks `len(sys.argv)` — raises on `1` (no user argument) and on `> 2`;
* sets `LOCALIZATION_DIR = os.path.join(sys.argv[1], "loc")`;
* computes `POWERQUERY_PARSER_DIR` from `__file__` (modelled here as the
  opaque parameter `pqDir`);
* iterates `os.scandir(LOCALIZATION_DIR)`, skipping non-directories and
  the codes `"ResponseFiles"` and `"en"`;
* for every remaining entry builds
  `LOCALIZATION_DIR/<code>/src/localization/templates/en-US.json`,
  raises if `os.path.isfile` is false there, and otherwise prints a
  progress line and `shutil.copyfile`s it to
  `POWERQUERY_PARSER_DIR/src/localization/templates/<code>.json`.

Paths are lists of components.  The filesystem is modelled by its
observable functions: `isDir`, `isFile` (Python's `os.path.isfile`),
`content` (file bytes as a string), plus `locListing`, the result of
`os.scandir` on the scanned localization directory — a list of entry
names paired with their `entry.is_dir()` flag, in iteration order.
`shutil.copyfile` overwrites the destination's content with the source's
current content and makes the destination a regular file; it touches
nothing else.  An uncaught Python exception is modelled by the `error`
field of the run result and terminates the process with exit status 1.
-/

namespace LocalizationDrop

abbrev Path := List String

/-- Observable filesystem state.  `locListing` is the `os.scandir` result
of the localization directory `<root>/loc`: entry names with their
`is_dir` flag, in iteration order.  (`shutil.copyfile` writes only files
at depth ≥ 4, so it never adds or removes an immediate child of the
depth-2 directory `<root>/loc`; the listing is therefore stable across a
run.) -/
structure FS where
  isDir : Path → Bool
  isFile : Path → Bool
  content : Path → String
  locListing : List (String × Bool)

/-- `shutil.copyfile(src, dst)`: `dst` becomes a regular file whose bytes
are the current bytes of `src`; every other path is untouched. -/
def copyfile (fs : FS) (src dst : Path) : FS :=
  { fs with
    isFile := fun p => if p = dst then true else fs.isFile p,
    content := fun p => if p = dst then fs.content src else fs.content p }

/-- The tuple of build-artifact folder names the loop skips:
`("ResponseFiles", "en")`. -/
def excludedCodes : List String := ["ResponseFiles", "en"]

/-- `localization_src`: `os.path.join(LOCALIZATION_DIR, code, "src",
"localization", "templates", "en-US.json")` with
`LOCALIZATION_DIR = os.path.join(root, "loc")`. -/
def srcPath (root code : String) : Path :=
  [root, "loc", code, "src", "localization", "templates", "en-US.json"]

/-- `localization_dst`: `os.path.join(POWERQUERY_PARSER_DIR, "src",
"localization", "templates", code + ".json")`. -/
def dstPath (pqDir : Path) (code : String) : Path :=
  pqDir ++ ["src", "localization", "templates", code ++ ".json"]

/-- The progress line printed before each copy:
`"Copying {}\n\tsrc={}\n\tdst={}".format(code, src, dst)`. -/
def logLine (code : String) (src dst : Path) : String :=
  "Copying " ++ code ++ "\n\tsrc=" ++ String.intercalate "/" src ++
    "\n\tdst=" ++ String.intercalate "/" dst

/-- The exceptions the script can raise uncaught. -/
inductive RunError where
  /-- `len(sys.argv) == 1`: no user argument was given. -/
  | expectedSingleArg : RunError
  /-- `len(sys.argv) > 2`: more than one user argument was given. -/
  | tooManyArgs : RunError
  /-- `sys.argv[1]` on an empty argv (unreachable in CPython). -/
  | indexError : RunError
  /-- `raise Exception("couldn't find localization file for {} at {}")`:
  the message names the offending locale code and the expected path. -/
  | missingFile (code : String) (src : Path) : RunError
  deriving DecidableEq, Repr

/-- Result of one process run: final filesystem, the `print`ed progress
lines in order, the copies performed in order (locale code, source path,
destination path), and the uncaught exception if any. -/
structure RunResult where
  fs : FS
  logs : List String
  copies : List (String × Path × Path)
  error : Option RunError

/-- The `for entry in os.scandir(LOCALIZATION_DIR)` loop.  Non-directory
entries and excluded codes are skipped; a failing `os.path.isfile` check
aborts the whole run with `missingFile`; otherwise the file is copied
(after printing a progress line) and the loop continues. -/
def processEntries (root : String) (pqDir : Path) (fs : FS) :
    List (String × Bool) → RunResult
  | [] => ⟨fs, [], [], none⟩
  | (name, d) :: rest =>
    if d = false then processEntries root pqDir fs rest
    else if name ∈ excludedCodes then processEntries root pqDir fs rest
    else if fs.isFile (srcPath root name) = false then
      ⟨fs, [], [], some (RunError.missingFile name (srcPath root name))⟩
    else
      let r := processEntries root pqDir
        (copyfile fs (srcPath root name) (dstPath pqDir name)) rest
      ⟨r.fs,
       logLine name (srcPath root name) (dstPath pqDir name) :: r.logs,
       (name, srcPath root name, dstPath pqDir name) :: r.copies,
       r.error⟩

/-- One full process run.  `argv` is Python's `sys.argv` (program name
included), `pqDir` the opaque `POWERQUERY_PARSER_DIR`.  The argument
checks happen before any filesystem access. -/
def runScript (fs : FS) (argv : List String) (pqDir : Path) : RunResult :=
  if argv.length = 1 then ⟨fs, [], [], some RunError.expectedSingleArg⟩
  else if 2 < argv.length then ⟨fs, [], [], some RunError.tooManyArgs⟩
  else
    match argv with
    | [_, root] => processEntries root pqDir fs fs.locListing
    | _ => ⟨fs, [], [], some RunError.indexError⟩

/-- CPython exits with status 0 on normal termination and a non-zero
status (1) on an uncaught exception. -/
def exitCode (r : RunResult) : Nat :=
  match r.error with
  | none => 0
  | some _ => 1

/-- The copies the loop performs when no source file is missing: one per
directory entry whose code is not excluded, in listing order. -/
def allCopies (root : String) (pqDir : Path) :
    List (String × Bool) → List (String × Path × Path)
  | [] => []
  | (name, d) :: rest =>
    if d = true ∧ name ∉ excludedCodes then
      (name, srcPath root name, dstPath pqDir name) ::
        allCopies root pqDir rest
    else allCopies root pqDir rest

/-- A concrete one-locale filesystem used for witnesses: the collection
root is `"R"`, the single scanned entry is the directory `fr-fr`, and its
translation file is present with content `"DATA"`. -/
def exFS : FS :=
  { isDir := fun p =>
      decide (p = ["R", "loc"] ∨ p = ["R", "loc", "fr-fr"]),
    isFile := fun p => decide (p = srcPath "R" "fr-fr"),
    content := fun p => if p = srcPath "R" "fr-fr" then "DATA" else "",
    locListing := [("fr-fr", true)] }

/-- A filesystem whose localization directory has no entries at all. -/
def emptyFS : FS :=
  { isDir := fun p => decide (p = ["R", "loc"]),
    isFile := fun _ => false,
    content := fun _ => "",
    locListing := [] }

/-- Two locale directories `a` and `b`, both with their translation
file present. -/
def twoFS : FS :=
  { isDir := fun _ => true,
    isFile := fun p => decide (p = srcPath "R" "a" ∨ p = srcPath "R" "b"),
    content := fun _ => "x",
    locListing := [("a", true), ("b", true)] }

/-- A single locale directory named `qps-ploc`, with its translation
file present. -/
def qpsFS : FS :=
  { isDir := fun _ => true,
    isFile := fun p => decide (p = srcPath "R" "qps-ploc"),
    content := fun _ => "q",
    locListing := [("qps-ploc", true)] }

/-- A directory — not a regular file — sits at the expected translation
path of locale `fr-fr` (`isDir` true, `isFile` false there). -/
def dirAtSrcFS : FS :=
  { isDir := fun p => decide (p = srcPath "R" "fr-fr"),
    isFile := fun _ => false,
    content := fun _ => "",
    locListing := [("fr-fr", true)] }

/-- An excluded `en` entry (with no translation file behind it) listed
before an ordinary locale whose file is present. -/
def enFS : FS :=
  { isDir := fun _ => true,
    isFile := fun p => decide (p = srcPath "R" "fr-fr"),
    content := fun _ => "f",
    locListing := [("en", true), ("fr-fr", true)] }

/-- A listing with a stray plain file, one good locale (`de-de`), one
locale with a missing translation file (`fr-fr`) and one further locale
(`it-it`); exercises skipping, copying and aborting in a single run. -/
def abortFS : FS :=
  { isDir := fun _ => true,
    isFile := fun p =>
      decide (p = srcPath "R" "de-de" ∨ p = srcPath "R" "it-it"),
    content := fun p => if p = srcPath "R" "de-de" then "DD" else "",
    locListing :=
      [("stray.txt", false), ("de-de", true), ("fr-fr", true),
       ("it-it", true)] }

/-! ### Basic lemmas about `copyfile` and the path builders -/

lemma copyfile_isFile_ne {fs : FS} {src dst p : Path} (h : p ≠ dst) :
    (copyfile fs src dst).isFile p = fs.isFile p := by
  simp [copyfile, h]

lemma copyfile_content_ne {fs : FS} {src dst p : Path} (h : p ≠ dst) :
    (copyfile fs src dst).content p = fs.content p := by
  simp [copyfile, h]

lemma copyfile_isFile_true {fs : FS} {p : Path} (src dst : Path)
    (h : fs.isFile p = true) : (copyfile fs src dst).isFile p = true := by
  by_cases hp : p = dst <;> simp [copyfile, hp, h]

lemma srcPath_length (root code : String) : (srcPath root code).length = 7 :=
  rfl

lemma dstPath_length (pq : Path) (code : String) :
    (dstPath pq code).length = pq.length + 4 := by
  simp [dstPath]

lemma ne_dstPath_of_length {p pq : Path} (c : String)
    (h : p.length ≠ pq.length + 4) : p ≠ dstPath pq c := by
  intro he
  exact h (by rw [he, dstPath_length])

lemma srcPath_ne_dstPath {pq : Path} (hpq : pq.length ≠ 3)
    (root c c' : String) : srcPath root c ≠ dstPath pq c' := by
  apply ne_dstPath_of_length
  rw [srcPath_length]
  omega

lemma dstPath_inj {pq : Path} {a b : String}
    (h : dstPath pq a = dstPath pq b) : a = b := by
  have h4 : a ++ ".json" = b ++ ".json" := by
    have := List.append_cancel_left (h : pq ++ _ = pq ++ _)
    simpa using this
  have hd : a.data ++ ".json".data = b.data ++ ".json".data := by
    simpa [String.data_append] using congrArg String.data h4
  exact String.ext (List.append_cancel_right hd)

/-! ### Structural lemmas about the scan loop -/

/-- The loop never changes the scanned directory's listing: every write is
a `copyfile` to a destination at depth `pq.length + 4 ≥ 4`, never an
immediate child of the depth-2 localization directory. -/
lemma processEntries_locListing (root : String) (pq : Path)
    (L : List (String × Bool)) :
    ∀ fs : FS, (processEntries root pq fs L).fs.locListing = fs.locListing := by
  induction L with
  | nil => intro fs; rfl
  | cons e rest ih =>
    intro fs
    obtain ⟨name, d⟩ := e
    cases d with
    | false => simpa [processEntries] using ih fs
    | true =>
      by_cases hex : name ∈ excludedCodes
      · simpa [processEntries, hex] using ih fs
      · by_cases hf : fs.isFile (srcPath root name) = false
        · simp [processEntries, hex, hf]
        · simpa [processEntries, hex, hf, copyfile]
            using ih (copyfile fs (srcPath root name) (dstPath pq name))

/-- Paths that are not a possible copy destination of any listed entry
keep their existence status and content across the loop. -/
lemma processEntries_fs_preserved (root : String) (pq : Path) (p : Path)
    (L : List (String × Bool)) :
    ∀ fs : FS, (∀ e ∈ L, p ≠ dstPath pq e.1) →
      (processEntries root pq fs L).fs.isFile p = fs.isFile p ∧
      (processEntries root pq fs L).fs.content p = fs.content p := by
  induction L with
  | nil => intro fs _; exact ⟨rfl, rfl⟩
  | cons e rest ih =>
    intro fs h
    obtain ⟨name, d⟩ := e
    have hhead : p ≠ dstPath pq name := h (name, d) (List.mem_cons_self _ _)
    have htail : ∀ e ∈ rest, p ≠ dstPath pq e.1 :=
      fun e he => h e (List.mem_cons_of_mem _ he)
    cases d with
    | false => simpa [processEntries] using ih fs htail
    | true =>
      by_cases hex : name ∈ excludedCodes
      · simpa [processEntries, hex] using ih fs htail
      · by_cases hf : fs.isFile (srcPath root name) = false
        · simp [processEntries, hex, hf]
        · have hrec := ih (copyfile fs (srcPath root name) (dstPath pq name)) htail
          refine ⟨?_, ?_⟩ <;>
            simp [processEntries, hex, hf, hrec.1, hrec.2,
              copyfile_isFile_ne hhead, copyfile_content_ne hhead]

/-- The observable trace of the loop (logs, copies, outcome) depends on
the filesystem only through `isFile` at the candidate source paths,
provided destinations can never alias a source path
(`pq.length ≠ 3` forces the depth of every destination away from 7, the
depth of every source). -/
lemma processEntries_agree (root : String) (pq : Path) (hpq : pq.length ≠ 3)
    (L : List (String × Bool)) :
    ∀ fs₁ fs₂ : FS,
      (∀ c, fs₁.isFile (srcPath root c) = fs₂.isFile (srcPath root c)) →
      (processEntries root pq fs₁ L).logs = (processEntries root pq fs₂ L).logs ∧
      (processEntries root pq fs₁ L).copies = (processEntries root pq fs₂ L).copies ∧
      (processEntries root pq fs₁ L).error = (processEntries root pq fs₂ L).error := by
  induction L with
  | nil => intro _ _ _; exact ⟨rfl, rfl, rfl⟩
  | cons e rest ih =>
    intro fs₁ fs₂ hagree
    obtain ⟨name, d⟩ := e
    cases d with
    | false => simpa [processEntries] using ih fs₁ fs₂ hagree
    | true =>
      by_cases hex : name ∈ excludedCodes
      · simpa [processEntries, hex] using ih fs₁ fs₂ hagree
      · have hsd : ∀ c : String, srcPath root c ≠ dstPath pq name :=
          fun c => srcPath_ne_dstPath hpq root c name
        by_cases hf : fs₁.isFile (srcPath root name) = false
        · have hf₂ : fs₂.isFile (srcPath root name) = false := by
            rw [← hagree]; exact hf
          simp [processEntries, hex, hf, hf₂]
        · have hf₂ : ¬ fs₂.isFile (srcPath root name) = false := by
            rw [← hagree]; exact hf
          have hnext : ∀ c,
              (copyfile fs₁ (srcPath root name) (dstPath pq name)).isFile
                (srcPath root c) =
              (copyfile fs₂ (srcPath root name) (dstPath pq name)).isFile
                (srcPath root c) := by
            intro c
            rw [copyfile_isFile_ne (hsd c), copyfile_isFile_ne (hsd c)]
            exact hagree c
          have hrec := ih _ _ hnext
          simp [processEntries, hex, hf, hf₂, hrec.1, hrec.2.1, hrec.2.2]

/-- The observable trace of the loop is unchanged if the filesystem's
`isFile` and `content` functions are unchanged (the `isDir` and
`locListing` fields play no role inside the loop). -/
lemma processEntries_fs_congr (root : String) (pq : Path)
    (L : List (String × Bool)) :
    ∀ fs₁ fs₂ : FS, fs₁.isFile = fs₂.isFile → fs₁.content = fs₂.content →
      (processEntries root pq fs₁ L).logs = (processEntries root pq fs₂ L).logs ∧
      (processEntries root pq fs₁ L).copies = (processEntries root pq fs₂ L).copies ∧
      (processEntries root pq fs₁ L).error = (processEntries root pq fs₂ L).error := by
  induction L with
  | nil => intro _ _ _ _; exact ⟨rfl, rfl, rfl⟩
  | cons e rest ih =>
    intro fs₁ fs₂ hif hc
    obtain ⟨name, d⟩ := e
    cases d with
    | false => simpa [processEntries] using ih fs₁ fs₂ hif hc
    | true =>
      by_cases hex : name ∈ excludedCodes
      · simpa [processEntries, hex] using ih fs₁ fs₂ hif hc
      · by_cases hf : fs₁.isFile (srcPath root name) = false
        · have hf₂ : fs₂.isFile (srcPath root name) = false := by
            rw [← hif]; exact hf
          simp [processEntries, hex, hf, hf₂]
        · have hf₂ : ¬ fs₂.isFile (srcPath root name) = false := by
            rw [← hif]; exact hf
          have hrec := ih
            (copyfile fs₁ (srcPath root name) (dstPath pq name))
            (copyfile fs₂ (srcPath root name) (dstPath pq name))
            (by funext p; simp [copyfile, hif])
            (by funext p; simp [copyfile, hif, hc])
          simp [processEntries, hex, hf, hf₂, hrec.1, hrec.2.1, hrec.2.2]

/-- A non-directory entry anywhere in the listing is skipped outright:
the loop behaves exactly as if the entry were not listed. -/
lemma processEntries_skip_nondir (root : String) (pq : Path) (name : String)
    (post : List (String × Bool)) :
    ∀ (pre : List (String × Bool)) (fs : FS),
      processEntries root pq fs (pre ++ (name, false) :: post) =
      processEntries root pq fs (pre ++ post) := by
  intro pre
  induction pre with
  | nil => intro fs; simp [processEntries]
  | cons e rest ih =>
    intro fs
    obtain ⟨n, d⟩ := e
    cases d with
    | false => simpa [processEntries] using ih fs
    | true =>
      by_cases hex : n ∈ excludedCodes
      · simpa [processEntries, hex] using ih fs
      · by_cases hf : fs.isFile (srcPath root n) = false
        · simp [processEntries, hex, hf]
        · simp [processEntries, hex, hf,
            ih (copyfile fs (srcPath root n) (dstPath pq n))]

/-- A directory entry whose name is one of the excluded build-artifact
codes is skipped outright: the loop behaves exactly as if the entry were
not listed — in particular no existence check and no copy happen for it. -/
lemma processEntries_skip_excluded (root : String) (pq : Path) {name : String}
    (hname : name ∈ excludedCodes) (post : List (String × Bool)) :
    ∀ (pre : List (String × Bool)) (fs : FS),
      processEntries root pq fs (pre ++ (name, true) :: post) =
      processEntries root pq fs (pre ++ post) := by
  intro pre
  induction pre with
  | nil => intro fs; simp [processEntries, hname]
  | cons e rest ih =>
    intro fs
    obtain ⟨n, d⟩ := e
    cases d with
    | false => simpa [processEntries] using ih fs
    | true =>
      by_cases hex : n ∈ excludedCodes
      · simpa [processEntries, hex] using ih fs
      · by_cases hf : fs.isFile (srcPath root n) = false
        · simp [processEntries, hex, hf]
        · simp [processEntries, hex, hf,
            ih (copyfile fs (srcPath root n) (dstPath pq n))]

/-- When every non-excluded directory entry has its translation file, the
loop terminates normally and performs exactly one copy per non-excluded
directory entry, in listing order. -/
lemma processEntries_complete (root : String) (pq : Path)
    (L : List (String × Bool)) :
    ∀ fs : FS,
      (∀ e ∈ L, e.2 = true → e.1 ∉ excludedCodes →
        fs.isFile (srcPath root e.1) = true) →
      (processEntries root pq fs L).copies = allCopies root pq L ∧
      (processEntries root pq fs L).error = none := by
  induction L with
  | nil => intro fs _; exact ⟨rfl, rfl⟩
  | cons e rest ih =>
    intro fs h
    obtain ⟨name, d⟩ := e
    have htail0 : ∀ e ∈ rest, e.2 = true → e.1 ∉ excludedCodes →
        fs.isFile (srcPath root e.1) = true :=
      fun e he => h e (List.mem_cons_of_mem _ he)
    cases d with
    | false => simpa [processEntries, allCopies] using ih fs htail0
    | true =>
      by_cases hex : name ∈ excludedCodes
      · simpa [processEntries, allCopies, hex] using ih fs htail0
      · have hf : fs.isFile (srcPath root name) = true :=
          h (name, true) (List.mem_cons_self _ _) rfl hex
        have htail : ∀ e ∈ rest, e.2 = true → e.1 ∉ excludedCodes →
            (copyfile fs (srcPath root name) (dstPath pq name)).isFile
              (srcPath root e.1) = true :=
          fun e he h1 h2 => copyfile_isFile_true _ _ (htail0 e he h1 h2)
        have hrec := ih _ htail
        simp [processEntries, allCopies, hex, hf, hrec.1, hrec.2]

/-- If a non-excluded directory entry's translation file is missing, the
whole run aborts at that entry with the `missingFile` exception: exactly
the copies for the earlier entries have been performed, nothing after the
failing entry is touched.  `pq.length ≠ 3` rules out a destination write
aliasing a source path. -/
lemma processEntries_abort (root : String) (pq : Path) (hpq : pq.length ≠ 3)
    {code : String} (hcode : code ∉ excludedCodes)
    (post : List (String × Bool)) :
    ∀ (pre : List (String × Bool)) (fs : FS),
      fs.isFile (srcPath root code) = false →
      (∀ e ∈ pre, e.2 = true → e.1 ∉ excludedCodes →
        fs.isFile (srcPath root e.1) = true) →
      (processEntries root pq fs (pre ++ (code, true) :: post)).copies =
        allCopies root pq pre ∧
      (processEntries root pq fs (pre ++ (code, true) :: post)).error =
        some (RunError.missingFile code (srcPath root code)) := by
  intro pre
  induction pre with
  | nil => intro fs hmiss _; simp [processEntries, allCopies, hcode, hmiss]
  | cons e rest ih =>
    intro fs hmiss hpre
    obtain ⟨name, d⟩ := e
    have htail0 : ∀ e ∈ rest, e.2 = true → e.1 ∉ excludedCodes →
        fs.isFile (srcPath root e.1) = true :=
      fun e he => hpre e (List.mem_cons_of_mem _ he)
    cases d with
    | false => simpa [processEntries, allCopies] using ih fs hmiss htail0
    | true =>
      by_cases hex : name ∈ excludedCodes
      · simpa [processEntries, allCopies, hex] using ih fs hmiss htail0
      · have hf : fs.isFile (srcPath root name) = true :=
          hpre (name, true) (List.mem_cons_self _ _) rfl hex
        have hmiss' :
            (copyfile fs (srcPath root name) (dstPath pq name)).isFile
              (srcPath root code) = false := by
          rw [copyfile_isFile_ne (srcPath_ne_dstPath hpq root code name)]
          exact hmiss
        have htail : ∀ e ∈ rest, e.2 = true → e.1 ∉ excludedCodes →
            (copyfile fs (srcPath root name) (dstPath pq name)).isFile
              (srcPath root e.1) = true :=
          fun e he h1 h2 => copyfile_isFile_true _ _ (htail0 e he h1 h2)
        have hrec := ih _ hmiss' htail
        simp [processEntries, allCopies, hex, hf, hrec.1, hrec.2]

/-- If a non-excluded directory entry's translation file is present and
the loop reaches it (all earlier non-excluded directory entries have
their files), its copy is performed, and at the end of the loop the
destination file exists with exactly the source's original content
(no later entry overwrites it, as later codes differ). -/
lemma processEntries_reach (root : String) (pq : Path) (hpq : pq.length ≠ 3)
    {code : String} (hcode : code ∉ excludedCodes)
    (post : List (String × Bool)) (hpost : code ∉ post.map Prod.fst) :
    ∀ (pre : List (String × Bool)) (fs : FS),
      fs.isFile (srcPath root code) = true →
      (∀ e ∈ pre, e.2 = true → e.1 ∉ excludedCodes →
        fs.isFile (srcPath root e.1) = true) →
      (code, srcPath root code, dstPath pq code) ∈
        (processEntries root pq fs (pre ++ (code, true) :: post)).copies ∧
      (processEntries root pq fs (pre ++ (code, true) :: post)).fs.isFile
        (dstPath pq code) = true ∧
      (processEntries root pq fs (pre ++ (code, true) :: post)).fs.content
        (dstPath pq code) = fs.content (srcPath root code) := by
  intro pre
  induction pre with
  | nil =>
    intro fs hfile _
    have hne : ∀ e ∈ post, dstPath pq code ≠ dstPath pq e.1 := by
      intro e he hEq
      exact hpost (by
        rw [dstPath_inj hEq]
        exact List.mem_map_of_mem Prod.fst he)
    have hpres := processEntries_fs_preserved root pq (dstPath pq code) post
      (copyfile fs (srcPath root code) (dstPath pq code)) hne
    simp only [List.nil_append]
    refine ⟨?_, ?_, ?_⟩
    · simp [processEntries, hcode, hfile]
    · rw [show (processEntries root pq fs (((code, true) :: post))).fs =
          (processEntries root pq
            (copyfile fs (srcPath root code) (dstPath pq code)) post).fs
        by simp [processEntries, hcode, hfile]]
      rw [hpres.1]
      simp [copyfile]
    · rw [show (processEntries root pq fs (((code, true) :: post))).fs =
          (processEntries root pq
            (copyfile fs (srcPath root code) (dstPath pq code)) post).fs
        by simp [processEntries, hcode, hfile]]
      rw [hpres.2]
      simp [copyfile]
  | cons e rest ih =>
    intro fs hfile hpre
    obtain ⟨name, d⟩ := e
    have htail0 : ∀ e ∈ rest, e.2 = true → e.1 ∉ excludedCodes →
        fs.isFile (srcPath root e.1) = true :=
      fun e he => hpre e (List.mem_cons_of_mem _ he)
    cases d with
    | false => simpa [processEntries] using ih fs hfile htail0
    | true =>
      by_cases hex : name ∈ excludedCodes
      · simpa [processEntries, hex] using ih fs hfile htail0
      · have hf : fs.isFile (srcPath root name) = true :=
          hpre (name, true) (List.mem_cons_self _ _) rfl hex
        have hfile' :
            (copyfile fs (srcPath root name) (dstPath pq name)).isFile
              (srcPath root code) = true :=
          copyfile_isFile_true _ _ hfile
        have htail : ∀ e ∈ rest, e.2 = true → e.1 ∉ excludedCodes →
            (copyfile fs (srcPath root name) (dstPath pq name)).isFile
              (srcPath root e.1) = true :=
          fun e he h1 h2 => copyfile_isFile_true _ _ (htail0 e he h1 h2)
        have hrec := ih
          (copyfile fs (srcPath root name) (dstPath pq name)) hfile' htail
        have hcontent :
            (copyfile fs (srcPath root name) (dstPath pq name)).content
              (srcPath root code) = fs.content (srcPath root code) :=
          copyfile_content_ne (srcPath_ne_dstPath hpq root code name)
        refine ⟨?_, ?_, ?_⟩
        · simp only [List.cons_append]
          simp [processEntries, hex, hf]
          exact Or.inr hrec.1
        · simp only [List.cons_append]
          simp [processEntries, hex, hf]
          exact hrec.2.1
        · simp only [List.cons_append]
          simp [processEntries, hex, hf]
          rw [hrec.2.2, hcontent]

/-- Every copy op the loop emits is for a non-excluded code, with source
and destination built by the two fixed path templates. -/
lemma processEntries_copies_shape (root : String) (pq : Path)
    (L : List (String × Bool)) :
    ∀ fs : FS, ∀ op ∈ (processEntries root pq fs L).copies,
      op.1 ∉ excludedCodes ∧ op.2.1 = srcPath root op.1 ∧
        op.2.2 = dstPath pq op.1 := by
  induction L with
  | nil => intro fs op hop; simp [processEntries] at hop
  | cons e rest ih =>
    intro fs op hop
    obtain ⟨name, d⟩ := e
    cases d with
    | false => exact ih fs op (by simpa [processEntries] using hop)
    | true =>
      by_cases hex : name ∈ excludedCodes
      · exact ih fs op (by simpa [processEntries, hex] using hop)
      · by_cases hf : fs.isFile (srcPath root name) = false
        · simp [processEntries, hex, hf] at hop
        · simp [processEntries, hex, hf] at hop
          rcases hop with hop | hop
          · subst hop; exact ⟨hex, rfl, rfl⟩
          · exact ih _ op hop

/-- The missing-file exception always names the code of a scanned entry
together with the source path built for that code. -/
lemma processEntries_error_shape (root : String) (pq : Path)
    (L : List (String × Bool)) :
    ∀ fs : FS, ∀ c : String, ∀ s : Path,
      (processEntries root pq fs L).error = some (RunError.missingFile c s) →
      s = srcPath root c := by
  induction L with
  | nil => intro fs c s h; simp [processEntries] at h
  | cons e rest ih =>
    intro fs c s h
    obtain ⟨name, d⟩ := e
    cases d with
    | false => exact ih fs c s (by simpa [processEntries] using h)
    | true =>
      by_cases hex : name ∈ excludedCodes
      · exact ih fs c s (by simpa [processEntries, hex] using h)
      · by_cases hf : fs.isFile (srcPath root name) = false
        · simp [processEntries, hex, hf] at h
          rw [← h.2, h.1]
        · exact ih _ c s (by simpa [processEntries, hex, hf] using h)

/-- Exactly one progress line is printed per copy, carrying the locale
code, the source path and the destination path of that copy. -/
lemma processEntries_logs_map (root : String) (pq : Path)
    (L : List (String × Bool)) :
    ∀ fs : FS,
      (processEntries root pq fs L).logs =
        (processEntries root pq fs L).copies.map
          (fun t => logLine t.1 t.2.1 t.2.2) := by
  induction L with
  | nil => intro fs; rfl
  | cons e rest ih =>
    intro fs
    obtain ⟨name, d⟩ := e
    cases d with
    | false => simpa [processEntries] using ih fs
    | true =>
      by_cases hex : name ∈ excludedCodes
      · simpa [processEntries, hex] using ih fs
      · by_cases hf : fs.isFile (srcPath root name) = false
        · simp [processEntries, hex, hf]
        · simp [processEntries, hex, hf,
            ih (copyfile fs (srcPath root name) (dstPath pq name))]

/-- With a well-formed argv `[program, root]` the run is exactly the scan
loop over the listing of `<root>/loc`: the argument checks pass. -/
lemma runScript_two (fs : FS) (prog root : String) (pq : Path) :
    runScript fs [prog, root] pq = processEntries root pq fs fs.locListing :=
  rfl

/-! ### Claim C1 — idempotent second run -/

/-- Claim C1 is false on the code: on the concrete one-locale collection
`exFS`, the second run against the unchanged collection performs the
file copy again (its copy list is the same non-empty list as the first
run's) instead of reading a marker and terminating with no side
effects.  Each file copy is therefore performed twice, not once. -/
theorem C1_cex :
    (runScript exFS ["prog", "R"] ["P"]).copies =
      [("fr-fr", srcPath "R" "fr-fr", dstPath ["P"] "fr-fr")] ∧
    (runScript (runScript exFS ["prog", "R"] ["P"]).fs
        ["prog", "R"] ["P"]).copies =
      [("fr-fr", srcPath "R" "fr-fr", dstPath ["P"] "fr-fr")] := by
  decide

/-- Claim C1, amended: the script keeps no Processed-Marker, so a second
run against the unchanged collection is not a no-op — it prints the same
progress lines, performs the same copies again, and ends with the same
outcome as the first run.  (`pq.length ≠ 3` keeps the destination depth
`pq.length + 4` away from the source depth 7, so a destination write
cannot alias a source file and change the second run's checks.) -/
theorem C1_second_run_repeats (fs : FS) (prog prog2 root : String)
    (pq : Path) (hpq : pq.length ≠ 3) :
    (runScript (runScript fs [prog, root] pq).fs [prog2, root] pq).logs =
      (runScript fs [prog, root] pq).logs ∧
    (runScript (runScript fs [prog, root] pq).fs [prog2, root] pq).copies =
      (runScript fs [prog, root] pq).copies ∧
    (runScript (runScript fs [prog, root] pq).fs [prog2, root] pq).error =
      (runScript fs [prog, root] pq).error := by
  rw [runScript_two, runScript_two, processEntries_locListing]
  exact processEntries_agree root pq hpq fs.locListing _ fs
    (fun c => (processEntries_fs_preserved root pq (srcPath root c)
      fs.locListing fs
      (fun e _ => srcPath_ne_dstPath hpq root c e.1)).1)

/-- `C1_second_run_repeats` evaluated on the concrete collection `exFS`
with destination root `["P"]`. -/
theorem C1_witness :
    (["P"] : Path).length ≠ 3 ∧
    ((runScript (runScript exFS ["p", "R"] ["P"]).fs ["p", "R"] ["P"]).logs =
        (runScript exFS ["p", "R"] ["P"]).logs ∧
      (runScript (runScript exFS ["p", "R"] ["P"]).fs
          ["p", "R"] ["P"]).copies =
        (runScript exFS ["p", "R"] ["P"]).copies ∧
      (runScript (runScript exFS ["p", "R"] ["P"]).fs
          ["p", "R"] ["P"]).error =
        (runScript exFS ["p", "R"] ["P"]).error) :=
  ⟨by decide, C1_second_run_repeats exFS "p" "p" "R" ["P"] (by decide)⟩

/-! ### Claim C2 — latest-drop selection and `NoDropFoundError` -/

/-- Claim C2 is false on the code: the synchronizer neither selects a
lexicographically-greatest subdirectory nor fails on an empty
collection.  On `emptyFS` (no entries at all) the run terminates
successfully with exit code 0 instead of raising a `NoDropFoundError`,
and on `twoFS` (entries `a` and `b`) both entries are processed rather
than only the lexicographically greatest one. -/
theorem C2_cex :
    (runScript emptyFS ["prog", "R"] ["P"]).error = none ∧
    exitCode (runScript emptyFS ["prog", "R"] ["P"]) = 0 ∧
    (runScript twoFS ["prog", "R"] ["P"]).copies =
      [("a", srcPath "R" "a", dstPath ["P"] "a"),
       ("b", srcPath "R" "b", dstPath ["P"] "b")] := by
  decide

/-- Claim C2, amended: the tool appends the fixed component `loc` to the
given root and processes every locale subdirectory listed there (in
listing order), with no notion of a latest drop.  When every
non-excluded directory entry has its translation file the run exits 0
having performed exactly one copy per such entry — in particular a
directory with no entries yields a successful run with no copies, not an
error. -/
theorem C2_processes_all_entries (fs : FS) (prog root : String) (pq : Path)
    (hall : ∀ e ∈ fs.locListing, e.2 = true → e.1 ∉ excludedCodes →
      fs.isFile (srcPath root e.1) = true) :
    (runScript fs [prog, root] pq).copies =
      allCopies root pq fs.locListing ∧
    (runScript fs [prog, root] pq).error = none ∧
    exitCode (runScript fs [prog, root] pq) = 0 := by
  have h := processEntries_complete root pq fs.locListing fs hall
  rw [runScript_two]
  exact ⟨h.1, h.2, by unfold exitCode; rw [h.2]⟩

/-- `C2_processes_all_entries` evaluated on the two-locale collection
`twoFS`. -/
theorem C2_witness :
    (∀ e ∈ twoFS.locListing, e.2 = true → e.1 ∉ excludedCodes →
      twoFS.isFile (srcPath "R" e.1) = true) ∧
    ((runScript twoFS ["p", "R"] ["P"]).copies =
        allCopies "R" ["P"] twoFS.locListing ∧
      (runScript twoFS ["p", "R"] ["P"]).error = none ∧
      exitCode (runScript twoFS ["p", "R"] ["P"]) = 0) :=
  ⟨by decide, C2_processes_all_entries twoFS "p" "R" ["P"] (by decide)⟩

/-! ### Claim C3 — the Processed-Marker file -/

/-- Claim C3 is false on the code: after a fully successful, non-trivial
run on `exFS` (error-free, one copy performed), no file exists at the
marker path `["localization_drop"]` — the script never writes a marker,
so the marker does not contain the processed drop's name. -/
theorem C3_cex :
    (runScript exFS ["prog", "R"] ["P"]).error = none ∧
    (runScript exFS ["prog", "R"] ["P"]).copies ≠ [] ∧
    (runScript exFS ["prog", "R"] ["P"]).fs.isFile ["localization_drop"] =
      false := by
  decide

/-- Claim C3, amended: the script writes no marker at all.  Every path
whose depth differs from the destination depth `pq.length + 4` — in
particular the depth-1 working-directory marker path
`["localization_drop"]` — keeps its existence status and its content
across any run, successful or not. -/
theorem C3_no_marker_written (fs : FS) (argv : List String) (pq : Path)
    (p : Path) (hp : p.length ≠ pq.length + 4) :
    (runScript fs argv pq).fs.isFile p = fs.isFile p ∧
    (runScript fs argv pq).fs.content p = fs.content p := by
  rcases argv with _ | ⟨a, _ | ⟨b, _ | ⟨c, rest⟩⟩⟩
  · exact ⟨rfl, rfl⟩
  · exact ⟨rfl, rfl⟩
  · rw [runScript_two]
    exact processEntries_fs_preserved b pq p fs.locListing fs
      (fun e _ => ne_dstPath_of_length e.1 hp)
  · have h1 : (a :: b :: c :: rest).length ≠ 1 := by
      simp only [List.length_cons]; omega
    have h2 : 2 < (a :: b :: c :: rest).length := by
      simp only [List.length_cons]; omega
    have hr : runScript fs (a :: b :: c :: rest) pq =
        ⟨fs, [], [], some RunError.tooManyArgs⟩ := by
      unfold runScript
      rw [if_neg h1, if_pos h2]
    rw [hr]
    exact ⟨rfl, rfl⟩

/-- `C3_no_marker_written` evaluated at the marker path
`["localization_drop"]` on the concrete collection `exFS`. -/
theorem C3_witness :
    (["localization_drop"] : Path).length ≠ (["P"] : Path).length + 4 ∧
    ((runScript exFS ["p", "R"] ["P"]).fs.isFile ["localization_drop"] =
        exFS.isFile ["localization_drop"] ∧
      (runScript exFS ["p", "R"] ["P"]).fs.content ["localization_drop"] =
        exFS.content ["localization_drop"]) :=
  ⟨by decide,
    C3_no_marker_written exFS ["p", "R"] ["P"] ["localization_drop"]
      (by decide)⟩

/-! ### Claim C4 — the exclusion set -/

/-- Claim C4 is false on the code: `qps-ploc` is not in the code's
exclusion tuple `("ResponseFiles", "en")`, so on `qpsFS` the run copies
the `qps-ploc` entry and creates a destination file for it, contradicting
the claimed exclusion set `{"en", "ResponseFiles", "qps-ploc"}`. -/
theorem C4_cex :
    (runScript qpsFS ["prog", "R"] ["P"]).copies =
      [("qps-ploc", srcPath "R" "qps-ploc", dstPath ["P"] "qps-ploc")] ∧
    (runScript qpsFS ["prog", "R"] ["P"]).fs.isFile
      (dstPath ["P"] "qps-ploc") = true := by
  decide

/-- Claim C4, amended: the exclusion set is only
`{"ResponseFiles", "en"}`.  A directory entry bearing one of those codes
is skipped outright — the run's progress lines, copies and outcome are
exactly those of the same filesystem with that entry removed from the
listing, so no destination file is created for it and no source-file
existence check is performed for it (its translation file may be absent
without aborting the run) — and no copy the run performs is ever for an
excluded code. -/
theorem C4_excluded_skipped (fs : FS) (prog root : String) (pq : Path)
    (name : String) (pre post : List (String × Bool))
    (hname : name ∈ excludedCodes)
    (hlist : fs.locListing = pre ++ (name, true) :: post) :
    ((runScript fs [prog, root] pq).logs =
        (runScript { fs with locListing := pre ++ post }
          [prog, root] pq).logs ∧
      (runScript fs [prog, root] pq).copies =
        (runScript { fs with locListing := pre ++ post }
          [prog, root] pq).copies ∧
      (runScript fs [prog, root] pq).error =
        (runScript { fs with locListing := pre ++ post }
          [prog, root] pq).error) ∧
    ∀ op ∈ (runScript fs [prog, root] pq).copies,
      op.1 ∉ excludedCodes := by
  constructor
  · have h1 : processEntries root pq fs fs.locListing =
        processEntries root pq fs (pre ++ post) := by
      rw [hlist, processEntries_skip_excluded root pq hname post pre fs]
    have h2 := processEntries_fs_congr root pq (pre ++ post)
      { fs with locListing := pre ++ post } fs rfl rfl
    rw [runScript_two, runScript_two, h1]
    exact ⟨h2.1.symm, h2.2.1.symm, h2.2.2.symm⟩
  · intro op hop
    rw [runScript_two] at hop
    exact (processEntries_copies_shape root pq fs.locListing fs op hop).1

/-- `C4_excluded_skipped` evaluated on `enFS`, whose leading `en` entry
has no translation file behind it and is skipped anyway. -/
theorem C4_witness :
    ("en" ∈ excludedCodes ∧
      enFS.locListing = [] ++ ("en", true) :: [("fr-fr", true)]) ∧
    (((runScript enFS ["p", "R"] ["P"]).logs =
        (runScript { enFS with locListing := [] ++ [("fr-fr", true)] }
          ["p", "R"] ["P"]).logs ∧
      (runScript enFS ["p", "R"] ["P"]).copies =
        (runScript { enFS with locListing := [] ++ [("fr-fr", true)] }
          ["p", "R"] ["P"]).copies ∧
      (runScript enFS ["p", "R"] ["P"]).error =
        (runScript { enFS with locListing := [] ++ [("fr-fr", true)] }
          ["p", "R"] ["P"]).error) ∧
    ∀ op ∈ (runScript enFS ["p", "R"] ["P"]).copies,
      op.1 ∉ excludedCodes) :=
  ⟨⟨by decide, rfl⟩,
    C4_excluded_skipped enFS "p" "R" ["P"] "en" [] [("fr-fr", true)]
      (by decide) rfl⟩

/-! ### Claim C5 — the expected source-file path -/

/-- Claim C5 is false on the code: the source path actually consumed for
locale `fr-fr` is the 7-component
`R/loc/fr-fr/src/localization/templates/en-US.json` — it contains no
`BinDrops` or `Windows` component and no drop-name segment (the claimed
path shape `<root>/<drop>/BinDrops/Windows/bin/<code>/...` has 10
components). -/
theorem C5_cex :
    (runScript exFS ["prog", "R"] ["P"]).copies.map (fun t => t.2.1) =
      [["R", "loc", "fr-fr", "src", "localization", "templates",
        "en-US.json"]] ∧
    ("BinDrops" ∈ (["R", "loc", "fr-fr", "src", "localization",
        "templates", "en-US.json"] : Path)) = False ∧
    ("Windows" ∈ (["R", "loc", "fr-fr", "src", "localization",
        "templates", "en-US.json"] : Path)) = False ∧
    (["R", "loc", "fr-fr", "src", "localization", "templates",
        "en-US.json"] : Path).length = 7 := by
  refine ⟨by decide, by simp, by simp, by decide⟩

/-- Claim C5, amended: for every locale code the expected source file is
`<root>/loc/<code>/src/localization/templates/en-US.json` — the `loc`
subfolder of the given root, with no drop-name and no
`BinDrops/Windows/bin` segment.  Every copy performed and every
missing-file error raised by a run uses a path of exactly this shape. -/
theorem C5_source_path_shape (fs : FS) (prog root : String) (pq : Path) :
    (∀ op ∈ (runScript fs [prog, root] pq).copies,
      op.2.1 = [root, "loc", op.1, "src", "localization", "templates",
        "en-US.json"]) ∧
    (∀ c s, (runScript fs [prog, root] pq).error =
        some (RunError.missingFile c s) →
      s = [root, "loc", c, "src", "localization", "templates",
        "en-US.json"]) := by
  rw [runScript_two]
  exact ⟨fun op hop =>
      (processEntries_copies_shape root pq fs.locListing fs op hop).2.1,
    fun c s h => processEntries_error_shape root pq fs.locListing fs c s h⟩

/-- `C5_source_path_shape` evaluated on the copy that the run on `exFS`
performs. -/
theorem C5_witness :
    ("fr-fr", srcPath "R" "fr-fr", dstPath ["P"] "fr-fr") ∈
      (runScript exFS ["p", "R"] ["P"]).copies ∧
    ("fr-fr", srcPath "R" "fr-fr", dstPath ["P"] "fr-fr").2.1 =
      ["R", "loc", "fr-fr", "src", "localization", "templates",
        "en-US.json"] :=
  ⟨by decide,
    (C5_source_path_shape exFS "p" "R" ["P"]).1
      ("fr-fr", srcPath "R" "fr-fr", dstPath ["P"] "fr-fr") (by decide)⟩

/-! ### Claim C6 — abort on a missing translation file -/

/-- Claim C6 (confirmed): if a non-excluded locale entry's expected
source file is missing, the run aborts with the missing-file exception
naming that locale code (exit status 1); exactly the copies of the
earlier entries have been performed — they are not rolled back and
nothing after the failing entry is processed — and the marker path
`["localization_drop"]` keeps its pre-run existence status and content.
(`pq.length ≠ 3` keeps destination writes from aliasing source paths;
the last hypothesis says the run reaches the failing entry because every
earlier non-excluded locale directory has its file.) -/
theorem C6_missing_file_aborts (fs : FS) (prog root : String) (pq : Path)
    (code : String) (pre post : List (String × Bool))
    (hpq : pq.length ≠ 3)
    (hlist : fs.locListing = pre ++ (code, true) :: post)
    (hcode : code ∉ excludedCodes)
    (hmiss : fs.isFile (srcPath root code) = false)
    (hpre : ∀ e ∈ pre, e.2 = true → e.1 ∉ excludedCodes →
      fs.isFile (srcPath root e.1) = true) :
    (runScript fs [prog, root] pq).error =
      some (RunError.missingFile code (srcPath root code)) ∧
    exitCode (runScript fs [prog, root] pq) = 1 ∧
    (runScript fs [prog, root] pq).copies = allCopies root pq pre ∧
    (runScript fs [prog, root] pq).fs.isFile ["localization_drop"] =
      fs.isFile ["localization_drop"] ∧
    (runScript fs [prog, root] pq).fs.content ["localization_drop"] =
      fs.content ["localization_drop"] := by
  have hmarker : (["localization_drop"] : Path).length ≠ pq.length + 4 := by
    simp only [List.length_cons, List.length_nil]
    omega
  rw [runScript_two, hlist]
  have h := processEntries_abort root pq hpq hcode post pre fs hmiss hpre
  have hm := processEntries_fs_preserved root pq ["localization_drop"]
    (pre ++ (code, true) :: post) fs
    (fun e _ => ne_dstPath_of_length e.1 hmarker)
  refine ⟨h.2, ?_, h.1, hm.1, hm.2⟩
  unfold exitCode
  rw [h.2]

/-- `C6_missing_file_aborts` evaluated on `abortFS`: the stray file and
the good `de-de` entry precede the failing `fr-fr` entry, `it-it` comes
after it. -/
theorem C6_witness :
    ((["P"] : Path).length ≠ 3 ∧
      abortFS.locListing =
        [("stray.txt", false), ("de-de", true)] ++
          ("fr-fr", true) :: [("it-it", true)] ∧
      "fr-fr" ∉ excludedCodes ∧
      abortFS.isFile (srcPath "R" "fr-fr") = false ∧
      (∀ e ∈ [("stray.txt", false), ("de-de", true)], e.2 = true →
        e.1 ∉ excludedCodes →
        abortFS.isFile (srcPath "R" e.1) = true)) ∧
    ((runScript abortFS ["p", "R"] ["P"]).error =
        some (RunError.missingFile "fr-fr" (srcPath "R" "fr-fr")) ∧
      exitCode (runScript abortFS ["p", "R"] ["P"]) = 1 ∧
      (runScript abortFS ["p", "R"] ["P"]).copies =
        allCopies "R" ["P"] [("stray.txt", false), ("de-de", true)] ∧
      (runScript abortFS ["p", "R"] ["P"]).fs.isFile
          ["localization_drop"] =
        abortFS.isFile ["localization_drop"] ∧
      (runScript abortFS ["p", "R"] ["P"]).fs.content
          ["localization_drop"] =
        abortFS.content ["localization_drop"]) :=
  ⟨⟨by decide, rfl, by decide, by decide, by decide⟩,
    C6_missing_file_aborts abortFS "p" "R" ["P"] "fr-fr"
      [("stray.txt", false), ("de-de", true)] [("it-it", true)]
      (by decide) rfl (by decide) (by decide) (by decide)⟩

/-! ### Claim C7 — successful copies and progress lines -/

/-- Claim C7 (confirmed): the run prints exactly one progress line per
copy, carrying that copy's locale code, source path and destination
path; and a non-excluded locale entry whose source file exists — and
which the loop reaches because every earlier non-excluded locale
directory has its file — gets copied to
`<pqDir>/src/localization/templates/<code>.json`, a path that afterwards
is a regular file whose content is byte-identical to the source file's
pre-run content.  (`pq.length ≠ 3` keeps destinations from aliasing
sources; the entry's code not recurring later in the listing keeps its
destination from being overwritten by a subsequent copy.) -/
theorem C7_copy_and_log (fs : FS) (prog root : String) (pq : Path)
    (code : String) (pre post : List (String × Bool))
    (hpq : pq.length ≠ 3)
    (hlist : fs.locListing = pre ++ (code, true) :: post)
    (hcode : code ∉ excludedCodes)
    (hfile : fs.isFile (srcPath root code) = true)
    (hpre : ∀ e ∈ pre, e.2 = true → e.1 ∉ excludedCodes →
      fs.isFile (srcPath root e.1) = true)
    (hpost : code ∉ post.map Prod.fst) :
    (runScript fs [prog, root] pq).logs =
      (runScript fs [prog, root] pq).copies.map
        (fun t => logLine t.1 t.2.1 t.2.2) ∧
    (code, srcPath root code, dstPath pq code) ∈
      (runScript fs [prog, root] pq).copies ∧
    (runScript fs [prog, root] pq).fs.isFile (dstPath pq code) = true ∧
    (runScript fs [prog, root] pq).fs.content (dstPath pq code) =
      fs.content (srcPath root code) := by
  rw [runScript_two, hlist]
  have h := processEntries_reach root pq hpq hcode post hpost pre fs
    hfile hpre
  exact ⟨processEntries_logs_map root pq _ fs, h.1, h.2.1, h.2.2⟩

/-- `C7_copy_and_log` evaluated on `abortFS` at the `de-de` entry, whose
copy happens (and survives) even though the run later aborts at
`fr-fr`. -/
theorem C7_witness :
    ((["P"] : Path).length ≠ 3 ∧
      abortFS.locListing =
        [("stray.txt", false)] ++
          ("de-de", true) :: [("fr-fr", true), ("it-it", true)] ∧
      "de-de" ∉ excludedCodes ∧
      abortFS.isFile (srcPath "R" "de-de") = true ∧
      (∀ e ∈ [("stray.txt", false)], e.2 = true → e.1 ∉ excludedCodes →
        abortFS.isFile (srcPath "R" e.1) = true) ∧
      "de-de" ∉ ([("fr-fr", true), ("it-it", true)].map Prod.fst)) ∧
    ((runScript abortFS ["p", "R"] ["P"]).logs =
        (runScript abortFS ["p", "R"] ["P"]).copies.map
          (fun t => logLine t.1 t.2.1 t.2.2) ∧
      ("de-de", srcPath "R" "de-de", dstPath ["P"] "de-de") ∈
        (runScript abortFS ["p", "R"] ["P"]).copies ∧
      (runScript abortFS ["p", "R"] ["P"]).fs.isFile
        (dstPath ["P"] "de-de") = true ∧
      (runScript abortFS ["p", "R"] ["P"]).fs.content
          (dstPath ["P"] "de-de") =
        abortFS.content (srcPath "R" "de-de")) :=
  ⟨⟨by decide, rfl, by decide, by decide, by decide, by decide⟩,
    C7_copy_and_log abortFS "p" "R" ["P"] "de-de" [("stray.txt", false)]
      [("fr-fr", true), ("it-it", true)]
      (by decide) rfl (by decide) (by decide) (by decide) (by decide)⟩

/-! ### Claim C8 — command-line surface and exit status -/

/-- Claim C8 (confirmed): invoked with zero user arguments
(`len(sys.argv) = 1`) or with more than one user argument
(`len(sys.argv) > 2`) the script raises before touching the filesystem —
the filesystem is returned unchanged, no copy is performed, no progress
line is printed — and the uncaught exception terminates the process with
a non-zero status; moreover any run that ends with an uncaught exception
exits with a non-zero status. -/
theorem C8_argument_check (fs : FS) (argv : List String) (pq : Path)
    (h : argv.length = 1 ∨ 2 < argv.length) :
    (runScript fs argv pq).error.isSome = true ∧
    (runScript fs argv pq).fs = fs ∧
    (runScript fs argv pq).copies = [] ∧
    (runScript fs argv pq).logs = [] ∧
    exitCode (runScript fs argv pq) ≠ 0 ∧
    ∀ (fs2 : FS) (argv2 : List String) (pq2 : Path),
      (runScript fs2 argv2 pq2).error.isSome = true →
      exitCode (runScript fs2 argv2 pq2) ≠ 0 := by
  have hgen : ∀ (fs2 : FS) (argv2 : List String) (pq2 : Path),
      (runScript fs2 argv2 pq2).error.isSome = true →
      exitCode (runScript fs2 argv2 pq2) ≠ 0 := by
    intro fs2 argv2 pq2 he
    unfold exitCode
    rcases hx : (runScript fs2 argv2 pq2).error with _ | e
    · rw [hx] at he
      simp at he
    · simp
  rcases h with h | h
  · have hr : runScript fs argv pq =
        ⟨fs, [], [], some RunError.expectedSingleArg⟩ := by
      unfold runScript
      rw [if_pos h]
    rw [hr]
    exact ⟨rfl, rfl, rfl, rfl, by unfold exitCode; simp, hgen⟩
  · have h1 : argv.length ≠ 1 := by omega
    have hr : runScript fs argv pq =
        ⟨fs, [], [], some RunError.tooManyArgs⟩ := by
      unfold runScript
      rw [if_neg h1, if_pos h]
    rw [hr]
    exact ⟨rfl, rfl, rfl, rfl, by unfold exitCode; simp, hgen⟩

/-- `C8_argument_check` evaluated at an argv holding only the program
name. -/
theorem C8_witness :
    ((["prog"] : List String).length = 1 ∨
      2 < (["prog"] : List String).length) ∧
    ((runScript exFS ["prog"] ["P"]).error.isSome = true ∧
      (runScript exFS ["prog"] ["P"]).fs = exFS ∧
      (runScript exFS ["prog"] ["P"]).copies = [] ∧
      (runScript exFS ["prog"] ["P"]).logs = [] ∧
      exitCode (runScript exFS ["prog"] ["P"]) ≠ 0 ∧
      ∀ (fs2 : FS) (argv2 : List String) (pq2 : Path),
        (runScript fs2 argv2 pq2).error.isSome = true →
        exitCode (runScript fs2 argv2 pq2) ≠ 0) :=
  ⟨Or.inl rfl, C8_argument_check exFS ["prog"] ["P"] (Or.inl rfl)⟩

/-! ### Claim C9 — non-directory entries are skipped silently -/

/-- Claim C9 (confirmed): an entry of the scanned localization directory
that is not a directory (`entry.is_dir()` false) is skipped silently,
whatever its name: the run's progress lines, copies and outcome are
exactly those of the same filesystem with that entry removed from the
listing, so no destination file is written for it and no error is raised
because of it. -/
theorem C9_nondir_skipped (fs : FS) (prog root : String) (pq : Path)
    (name : String) (pre post : List (String × Bool))
    (hlist : fs.locListing = pre ++ (name, false) :: post) :
    (runScript fs [prog, root] pq).logs =
      (runScript { fs with locListing := pre ++ post }
        [prog, root] pq).logs ∧
    (runScript fs [prog, root] pq).copies =
      (runScript { fs with locListing := pre ++ post }
        [prog, root] pq).copies ∧
    (runScript fs [prog, root] pq).error =
      (runScript { fs with locListing := pre ++ post }
        [prog, root] pq).error := by
  have h1 : processEntries root pq fs fs.locListing =
      processEntries root pq fs (pre ++ post) := by
    rw [hlist, processEntries_skip_nondir root pq name post pre fs]
  have h2 := processEntries_fs_congr root pq (pre ++ post)
    { fs with locListing := pre ++ post } fs rfl rfl
  rw [runScript_two, runScript_two, h1]
  exact ⟨h2.1.symm, h2.2.1.symm, h2.2.2.symm⟩

/-- `C9_nondir_skipped` evaluated on `abortFS`, whose leading
`stray.txt` entry is a plain file. -/
theorem C9_witness :
    (abortFS.locListing =
      [] ++ ("stray.txt", false) ::
        [("de-de", true), ("fr-fr", true), ("it-it", true)]) ∧
    ((runScript abortFS ["p", "R"] ["P"]).logs =
        (runScript { abortFS with locListing :=
            [] ++ [("de-de", true), ("fr-fr", true), ("it-it", true)] }
          ["p", "R"] ["P"]).logs ∧
      (runScript abortFS ["p", "R"] ["P"]).copies =
        (runScript { abortFS with locListing :=
            [] ++ [("de-de", true), ("fr-fr", true), ("it-it", true)] }
          ["p", "R"] ["P"]).copies ∧
      (runScript abortFS ["p", "R"] ["P"]).error =
        (runScript { abortFS with locListing :=
            [] ++ [("de-de", true), ("fr-fr", true), ("it-it", true)] }
          ["p", "R"] ["P"]).error) :=
  ⟨rfl,
    C9_nondir_skipped abortFS "p" "R" ["P"] "stray.txt" []
      [("de-de", true), ("fr-fr", true), ("it-it", true)] rfl⟩

/-! ### Claim C10 — the check is `isfile`, not mere existence -/

/-- Claim C10 (confirmed): the missing-file check is `os.path.isfile`,
so the run aborts with the missing-translation exception also when
something exists at the expected source path that is not a regular file
— here a directory (`isDir` true, `isFile` false) named `en-US.json` —
exactly as when the path is absent. -/
theorem C10_nonregular_source_aborts (fs : FS) (prog root : String)
    (pq : Path) (code : String)
    (hlist : fs.locListing = [(code, true)])
    (hcode : code ∉ excludedCodes)
    (hdir : fs.isDir (srcPath root code) = true)
    (hfile : fs.isFile (srcPath root code) = false) :
    (runScript fs [prog, root] pq).error =
      some (RunError.missingFile code (srcPath root code)) ∧
    (runScript fs [prog, root] pq).copies = [] ∧
    exitCode (runScript fs [prog, root] pq) = 1 := by
  rw [runScript_two, hlist]
  have h : processEntries root pq fs [(code, true)] =
      ⟨fs, [], [], some (RunError.missingFile code (srcPath root code))⟩ := by
    simp [processEntries, hcode, hfile]
  rw [h]
  exact ⟨rfl, rfl, rfl⟩

/-- `C10_nonregular_source_aborts` evaluated on `dirAtSrcFS`, where a
directory sits at `fr-fr`'s expected translation path. -/
theorem C10_witness :
    (dirAtSrcFS.locListing = [("fr-fr", true)] ∧
      "fr-fr" ∉ excludedCodes ∧
      dirAtSrcFS.isDir (srcPath "R" "fr-fr") = true ∧
      dirAtSrcFS.isFile (srcPath "R" "fr-fr") = false) ∧
    ((runScript dirAtSrcFS ["p", "R"] ["P"]).error =
        some (RunError.missingFile "fr-fr" (srcPath "R" "fr-fr")) ∧
      (runScript dirAtSrcFS ["p", "R"] ["P"]).copies = [] ∧
      exitCode (runScript dirAtSrcFS ["p", "R"] ["P"]) = 1) :=
  ⟨⟨rfl, by decide, by decide, by decide⟩,
    C10_nonregular_source_aborts dirAtSrcFS "p" "R" ["P"] "fr-fr"
      rfl (by decide) (by decide) (by decide)⟩

end LocalizationDrop
